import Mathlib

set_option maxRecDepth 100000

/-!
# Verification of the RAG core of the AI-Voice-Agent repository

Shallow embedding of `src/agent/rag_system.py` (class `RAGSystem`): the
knowledge-base parser `_load_knowledge_base`, the sample corpus from
`_create_sample_knowledge_base`, and the query functions `search`,
`get_answer`, `get_context`.  Python strings are modelled as `List Char`,
Python floats as `ℚ`, Python dicts as association lists.  The external
collaborators (the sentence-transformer embedding model and the FAISS
flat L2 index) are not part of the repository; they are modelled from the
spec's collaborator interfaces and from their documented behaviour, as
noted on each definition.
-/

namespace VoiceAgent

/-! ## Python string primitives over `List Char` -/

/-- Python `str.strip` whitespace set (ASCII part): space, tab, newline,
carriage return, vertical tab, form feed. -/
def pyIsSpace (c : Char) : Bool :=
  c = ' ' || c = '\t' || c = '\n' || c = '\r' || c = '\x0b' || c = '\x0c'

/-- Python `s.strip()`: remove leading and trailing whitespace. -/
def pyStrip (s : List Char) : List Char :=
  ((s.dropWhile pyIsSpace).reverse.dropWhile pyIsSpace).reverse

/-- Character-list equality as a short-circuiting boolean, so that the
kernel can check equalities of long concrete strings without deep
non-tail recursion. -/
def eqChars : List Char → List Char → Bool
  | [], [] => true
  | a :: as, b :: bs => a == b && eqChars as bs
  | _, _ => false

theorem eqChars_iff : ∀ {xs ys : List Char}, eqChars xs ys = true ↔ xs = ys := by
  intro xs
  induction xs with
  | nil => intro ys; cases ys <;> simp [eqChars]
  | cons a as ih =>
    intro ys
    cases ys with
    | nil => simp [eqChars]
    | cons b bs => simp [eqChars, ih]

/-- Python `sub in s`: substring containment (some suffix of `s` has
`sub` as a prefix). -/
def pyContains (sub : List Char) : List Char → Bool
  | [] => sub.isPrefixOf []
  | c :: rest => sub.isPrefixOf (c :: rest) || pyContains sub rest

/-- Worker for `pySplit`: scans `s` left to right, cutting at each
non-overlapping occurrence of the separator `c0 :: cs`; `acc` holds the
current chunk reversed.  The extra fuel argument keeps the recursion
structural (so that the kernel can evaluate it); every consumed
character costs one unit, so fuel `s.length` always suffices, and the
out-of-fuel branch is unreachable from `pySplit`. -/
def pySplitGo (c0 : Char) (cs : List Char) : ℕ → List Char → List Char → List (List Char)
  | _, [], acc => [acc.reverse]
  | 0, s, acc => [acc.reverse ++ s]
  | n + 1, c :: rest, acc =>
    if (c0 :: cs).isPrefixOf (c :: rest) then
      acc.reverse :: pySplitGo c0 cs n (rest.drop cs.length) []
    else
      pySplitGo c0 cs n rest (c :: acc)

/-- Running `pySplitGo` with adequate fuel. -/
def pySplitRun (c0 : Char) (cs : List Char) (s acc : List Char) : List (List Char) :=
  pySplitGo c0 cs s.length s acc

/-- Python `s.split(sep)` for a non-empty separator: split on every
non-overlapping occurrence, left to right, keeping empty chunks.
(Python raises `ValueError` on an empty separator; the code only ever
splits on `"\n\n"` and `"Answer:"`.) -/
def pySplit (sep s : List Char) : List (List Char) :=
  match sep with
  | [] => [s]
  | c0 :: cs => pySplitRun c0 cs s []

/-- The result of `pySplitGo` does not depend on the fuel, as long as the
fuel covers the length of the input. -/
theorem pySplitGo_fuel (c0 : Char) (cs : List Char) :
    ∀ (n : ℕ) (s acc : List Char) (m : ℕ), s.length ≤ n → s.length ≤ m →
      pySplitGo c0 cs n s acc = pySplitGo c0 cs m s acc := by
  intro n
  induction n with
  | zero =>
    intro s acc m hn _
    cases s with
    | nil => cases m <;> rfl
    | cons c rest => simp at hn
  | succ n ih =>
    intro s acc m hn hm
    cases s with
    | nil => cases m <;> rfl
    | cons c rest =>
      cases m with
      | zero => simp at hm
      | succ m =>
        simp only [List.length_cons, Nat.add_le_add_iff_right] at hn hm
        simp only [pySplitGo]
        by_cases hpre : ((c0 :: cs).isPrefixOf (c :: rest)) = true
        · simp only [hpre, if_true]
          have hd : (rest.drop cs.length).length ≤ n := by
            have := List.length_drop cs.length rest
            omega
          have hd' : (rest.drop cs.length).length ≤ m := by
            have := List.length_drop cs.length rest
            omega
          rw [ih _ _ m hd hd']
        · simp only [hpre, if_false]
          exact ih rest (c :: acc) m hn hm

/-- Unfolding `pySplitRun` on the empty string. -/
theorem pySplitRun_nil (c0 : Char) (cs acc : List Char) :
    pySplitRun c0 cs [] acc = [acc.reverse] := rfl

/-- Unfolding `pySplitRun` when the separator matches at the head. -/
theorem pySplitRun_cons_pos (c0 : Char) (cs : List Char) (c : Char)
    (rest acc : List Char) (h : (c0 :: cs).isPrefixOf (c :: rest) = true) :
    pySplitRun c0 cs (c :: rest) acc =
      acc.reverse :: pySplitRun c0 cs (rest.drop cs.length) [] := by
  unfold pySplitRun
  simp only [List.length_cons, pySplitGo, h, if_true]
  have := List.length_drop cs.length rest
  rw [pySplitGo_fuel c0 cs rest.length (rest.drop cs.length) [] (rest.drop cs.length).length]
  · omega
  · omega

/-- Unfolding `pySplitRun` when the separator does not match at the head. -/
theorem pySplitRun_cons_neg (c0 : Char) (cs : List Char) (c : Char)
    (rest acc : List Char) (h : (c0 :: cs).isPrefixOf (c :: rest) = false) :
    pySplitRun c0 cs (c :: rest) acc = pySplitRun c0 cs rest (c :: acc) := by
  unfold pySplitRun
  simp [pySplitGo, h]

/-- Python `s.replace(old, new)` for non-empty `old`, which equals
`new.join(s.split(old))`: every non-overlapping occurrence of `old`,
scanned left to right, is replaced by `new`. -/
def pyReplace (old new s : List Char) : List Char :=
  List.intercalate new (pySplit old s)

/-! ## Lemmas about the string primitives -/

theorem pyContains_cons (sep : List Char) (c : Char) (rest : List Char) :
    pyContains sep (c :: rest) = (sep.isPrefixOf (c :: rest) || pyContains sep rest) := rfl

theorem pyContains_of_isPrefixOf {sep s : List Char} (h : sep.isPrefixOf s = true) :
    pyContains sep s = true := by
  cases s with
  | nil => simpa [pyContains] using h
  | cons c rest => simp [pyContains, h]

theorem pyContains_of_leading {sep s : List Char} (h : sep <+: s) :
    pyContains sep s = true :=
  pyContains_of_isPrefixOf (List.isPrefixOf_iff_prefix.mpr h)

theorem pyContains_cons_false {sep : List Char} {c : Char} {rest : List Char}
    (h : pyContains sep (c :: rest) = false) :
    sep.isPrefixOf (c :: rest) = false ∧ pyContains sep rest = false := by
  simpa [pyContains_cons, Bool.or_eq_false_iff] using h

/-- A separator occurs in any string of the shape `x ++ sep ++ y`. -/
theorem pyContains_append_self (sep x y : List Char) :
    pyContains sep (x ++ sep ++ y) = true := by
  induction x with
  | nil =>
    exact pyContains_of_leading (by simpa using List.prefix_append sep y)
  | cons c x ih =>
    simpa [pyContains_cons, ih] using Or.inr ih

/-- Borderlessness of a separator pattern, as a computable check: no
proper nonempty prefix of `sep` is also a suffix of `sep` (formulated
via `drop`/`take`).  Both separators the code splits on, `"\n\n"` is
not borderless but `"Answer:"` is; the lemmas that need it take it as an
explicit hypothesis. -/
def borderlessB (sep : List Char) : Bool :=
  (List.range sep.length).all
    (fun k => k == 0 || !(eqChars (sep.drop k) (sep.take (sep.length - k))))

theorem borderless_spec {sep : List Char} (h : borderlessB sep = true) :
    ∀ k, 0 < k → k < sep.length → sep.drop k ≠ sep.take (sep.length - k) := by
  intro k hk hlen heq
  have h' := List.all_eq_true.mp h k (List.mem_range.mpr hlen)
  rcases Bool.or_eq_true_iff.mp h' with h'' | h''
  · have : k = 0 := by simpa using h''
    omega
  · exact absurd (eqChars_iff.mpr heq) (by simpa using h'')

/-- Core no-span property: if `sep` is borderless and does not occur in
`x ≠ []`, then `sep` is not a prefix of `x ++ sep ++ y` — an occurrence
cannot start strictly inside `x` and continue into the separator block. -/
theorem sep_not_isPrefixOf_mid {sep x y : List Char}
    (hb : borderlessB sep = true) (hc : pyContains sep x = false) (hx : x ≠ []) :
    sep.isPrefixOf (x ++ sep ++ y) = false := by
  by_contra hcon
  have hpre : sep <+: x ++ sep ++ y :=
    List.isPrefixOf_iff_prefix.mp (by simpa using hcon)
  have htake : sep = (x ++ (sep ++ y)).take sep.length := by
    obtain ⟨t, ht⟩ := hpre
    simp only [List.append_assoc] at ht
    rw [← ht]
    simp
  rcases le_or_lt sep.length x.length with hle | hlt
  · have hsx : sep <+: x := by
      rw [List.take_append_of_le_length hle] at htake
      exact htake ▸ List.take_prefix sep.length x
    exact absurd (pyContains_of_leading hsx) (by simp [hc])
  · have hxne : 0 < x.length := List.length_pos.mpr hx
    have hsplitlen : sep.length = x.length + (sep.length - x.length) := by omega
    have htk : (sep ++ y).take (sep.length - x.length) =
        sep.take (sep.length - x.length) :=
      List.take_append_of_le_length (by omega)
    rw [hsplitlen, List.take_append, htk] at htake
    have hdrop : sep.drop x.length = sep.take (sep.length - x.length) := by
      conv_lhs => rw [htake]
      rw [List.drop_left]
    exact borderless_spec hb x.length hxne hlt hdrop

/-- `pySplitGo` never returns the empty list. -/
theorem one_le_pySplitGo_length (c0 : Char) (cs : List Char) :
    ∀ (n : ℕ) (s acc : List Char), 1 ≤ (pySplitGo c0 cs n s acc).length := by
  intro n
  induction n with
  | zero => intro s acc; cases s <;> simp [pySplitGo]
  | succ n ih =>
    intro s acc
    cases s with
    | nil => simp [pySplitGo]
    | cons c rest =>
      simp only [pySplitGo]
      by_cases hp : ((c0 :: cs).isPrefixOf (c :: rest)) = true
      · simp [hp]
      · simp only [hp, if_false]
        exact ih rest (c :: acc)

/-- Splitting a string with no occurrence of the separator yields it
back as a single chunk (`acc`-generalized form). -/
theorem pySplitRun_of_not_contains {c0 : Char} {cs : List Char} :
    ∀ {s : List Char} (acc : List Char), pyContains (c0 :: cs) s = false →
      pySplitRun c0 cs s acc = [acc.reverse ++ s] := by
  intro s
  induction s with
  | nil => intro acc _; simp [pySplitRun_nil]
  | cons c rest ih =>
    intro acc h
    obtain ⟨h1, h2⟩ := pyContains_cons_false h
    rw [pySplitRun_cons_neg _ _ _ _ _ h1, ih (c :: acc) h2]
    simp

/-- Splitting `x ++ sep ++ y` where the borderless separator does not
occur in `x`: the first chunk is exactly `x` (`acc`-generalized form). -/
theorem pySplitRun_append_sep {c0 : Char} {cs y : List Char}
    (hb : borderlessB (c0 :: cs) = true) :
    ∀ {x : List Char} (acc : List Char), pyContains (c0 :: cs) x = false →
      pySplitRun c0 cs (x ++ (c0 :: cs) ++ y) acc =
        (acc.reverse ++ x) :: pySplitRun c0 cs y [] := by
  intro x
  induction x with
  | nil =>
    intro acc _
    have hpre : (c0 :: cs).isPrefixOf (c0 :: (cs ++ y)) = true := by
      rw [List.isPrefixOf_iff_prefix]
      simpa using List.prefix_append (c0 :: cs) y
    rw [show (([] : List Char) ++ (c0 :: cs) ++ y) = c0 :: (cs ++ y) by simp]
    rw [pySplitRun_cons_pos _ _ _ _ _ hpre]
    simp [List.drop_left]
  | cons c x ih =>
    intro acc hc
    obtain ⟨_, h2⟩ := pyContains_cons_false hc
    have hnp := @sep_not_isPrefixOf_mid (c0 :: cs) (c :: x) y hb hc (by simp)
    rw [show ((c :: x) ++ (c0 :: cs) ++ y) = c :: (x ++ (c0 :: cs) ++ y) by simp] at hnp ⊢
    rw [pySplitRun_cons_neg _ _ _ _ _ hnp, ih (c :: acc) h2]
    simp

/-- `pySplit` on a string with no occurrence of the separator. -/
theorem pySplit_of_not_contains {sep s : List Char} (hsep : sep ≠ [])
    (h : pyContains sep s = false) : pySplit sep s = [s] := by
  obtain ⟨c0, cs, rfl⟩ := List.exists_cons_of_ne_nil hsep
  unfold pySplit
  simpa using pySplitRun_of_not_contains [] h

/-- `pySplit` on `x ++ sep ++ y` for a borderless separator not
occurring in `x`. -/
theorem pySplit_append_sep {sep x y : List Char} (hsep : sep ≠ [])
    (hb : borderlessB sep = true) (hc : pyContains sep x = false) :
    pySplit sep (x ++ sep ++ y) = x :: pySplit sep y := by
  obtain ⟨c0, cs, rfl⟩ := List.exists_cons_of_ne_nil hsep
  unfold pySplit
  simpa using pySplitRun_append_sep hb [] hc

/-- A string containing the separator splits into at least two chunks:
the bound-check justification for the `parts[1]` access on line 82. -/
theorem two_le_pySplit_length_of_contains {sep s : List Char} (hsep : sep ≠ [])
    (h : pyContains sep s = true) : 2 ≤ (pySplit sep s).length := by
  obtain ⟨c0, cs, rfl⟩ := List.exists_cons_of_ne_nil hsep
  unfold pySplit
  suffices hgen : ∀ (s acc : List Char), pyContains (c0 :: cs) s = true →
      2 ≤ (pySplitRun c0 cs s acc).length by
    exact hgen s [] h
  clear h s
  intro s
  induction s with
  | nil => intro acc h; simp [pyContains] at h
  | cons c rest ih =>
    intro acc h
    cases hp : ((c0 :: cs).isPrefixOf (c :: rest)) with
    | true =>
      rw [pySplitRun_cons_pos _ _ _ _ _ hp]
      have h1 := one_le_pySplitGo_length c0 cs (rest.drop cs.length).length
        (rest.drop cs.length) []
      simp only [List.length_cons, pySplitRun]
      omega
    | false =>
      have hcr : pyContains (c0 :: cs) rest = true := by
        rw [pyContains_cons, hp] at h
        simpa using h
      rw [pySplitRun_cons_neg _ _ _ _ _ hp]
      exact ih (c :: acc) hcr

/-- Deleting a leading separator occurrence: `(sep ++ t).replace(sep, '')
= t` when `sep` does not occur in `t`. -/
theorem pySplit_cons_sep (c0 : Char) (cs s : List Char) :
    pySplit (c0 :: cs) s = pySplitRun c0 cs s [] := rfl

theorem pyReplace_del_leading_sep {sep t : List Char} (hsep : sep ≠ [])
    (h : pyContains sep t = false) : pyReplace sep [] (sep ++ t) = t := by
  obtain ⟨c0, cs, rfl⟩ := List.exists_cons_of_ne_nil hsep
  unfold pyReplace
  rw [show ((c0 :: cs) ++ t) = c0 :: (cs ++ t) by simp, pySplit_cons_sep]
  rw [pySplitRun_cons_pos _ _ _ _ _ (by
    rw [List.isPrefixOf_iff_prefix]
    simpa using List.prefix_append (c0 :: cs) t)]
  rw [show (cs ++ t).drop cs.length = t from List.drop_left cs t]
  rw [pySplitRun_of_not_contains [] h]
  simp [List.intercalate]

/-! ## Knowledge-base parsing (`_load_knowledge_base`, lines 68-100) -/

/-- The literal question marker `'Question:'`. -/
def questionMarker : List Char := "Question:".toList

/-- The literal answer marker `'Answer:'`. -/
def answerMarker : List Char := "Answer:".toList

/-- `content.strip().split('\n\n')` (line 76): the candidate records. -/
def parsePairs (content : List Char) : List (List Char) :=
  pySplit "\n\n".toList (pyStrip content)

/-- The guard of line 79: `'Question:' in pair and 'Answer:' in pair`. -/
def recordKeep (pair : List Char) : Bool :=
  pyContains questionMarker pair && pyContains answerMarker pair

/-- Line 81: `parts = pair.split('Answer:'); parts[0].replace('Question:', '').strip()`.
`parts[0]` always exists because `split` never returns an empty list. -/
def recordQuestion (pair : List Char) : List Char :=
  pyStrip (pyReplace questionMarker [] ((pySplit answerMarker pair).headD []))

/-- Line 82: `parts[1].strip()`.  `parts[1]` exists whenever the guard of
line 79 held, because a string containing `'Answer:'` splits into at
least two parts (proved below as `two_le_pySplit_length_of_contains`). -/
def recordAnswer (pair : List Char) : List Char :=
  pyStrip ((pySplit answerMarker pair).getD 1 [])

/-- The in-memory state of a `RAGSystem` instance: the three parallel
lists built by the load loop (lines 84-86) and the FAISS index, modelled
as the list of stored vectors (`None` before a successful build, as in
`__init__` line 25). -/
structure RAGState where
  questions : List (List Char)
  answers : List (List Char)
  documents : List (List Char)
  index : Option (List (List ℚ))
deriving DecidableEq

/-- `np.asarray(list_of_vectors).shape[1]` (line 96): a list of `n ≥ 1`
`d`-vectors becomes a `(n, d)` array, so `shape[1] = d`; the empty list
becomes a 1-D array of shape `(0,)`, so `shape[1]` raises `IndexError`
(modelled as `none`). -/
def shape1 : List (List ℚ) → Option ℕ
  | [] => none
  | v :: _ => some v.length

/-- `_load_knowledge_base` (lines 68-100): parse the records, build the
parallel `questions`/`answers`/`documents` lists, embed the questions
(the embedding collaborator is modelled per spec §6 as an
order-preserving function `embed` applied to each question), take
`dimension = embeddings.shape[1]`, and store the vectors in the flat
index.  The result is `none` when `shape[1]` raises (empty corpus). -/
def loadKnowledgeBase (embed : List Char → List ℚ) (content : List Char) :
    Option RAGState :=
  let kept := (parsePairs content).filter recordKeep
  let qs := kept.map recordQuestion
  let ans := kept.map recordAnswer
  let embeddings := qs.map embed
  match shape1 embeddings with
  | none => none
  | some _ => some ⟨qs, ans, kept, some embeddings⟩

/-! ## FAISS flat L2 index (external library, modelled) -/

/-- Squared Euclidean distance between two vectors (FAISS `IndexFlatL2`
metric, componentwise over the common dimension). -/
def sqDistL2 (u v : List ℚ) : ℚ :=
  ((u.zip v).map (fun p => (p.1 - p.2) * (p.1 - p.2))).sum

/-- The largest finite `float32` (`FLT_MAX`, `2^128 - 2^104`): the
sentinel distance FAISS leaves in result slots that no database vector
filled.  Its exact value is immaterial to every claim below; only the
accompanying sentinel id `-1` matters. -/
def floatMaxSentinel : ℚ := 340282346638528859811704183484516925440

/-- Ascending result order used by the concrete index model
`faissSearch`: smaller distance first, equal distances arranged by id.
The tie clause picks ONE admissible slot arrangement — FAISS does not
specify the order of equal-distance slots, and spec §4.2 itself concedes
the underlying structure may not guarantee tie order — so no claim below
relies on it: claim C8, which is about tie order, is settled against the
assumption-free contract `faissAdmissible`, which leaves the order of
equal-distance slots free. -/
def resultOrder (a b : ℤ × ℚ) : Prop :=
  a.2 < b.2 ∨ (a.2 = b.2 ∧ a.1 ≤ b.1)

instance : DecidableRel resultOrder := fun a b =>
  inferInstanceAs (Decidable (a.2 < b.2 ∨ (a.2 = b.2 ∧ a.1 ≤ b.1)))

instance : IsTotal (ℤ × ℚ) resultOrder := by
  constructor
  intro a b
  rcases lt_trichotomy a.2 b.2 with h | h | h
  · exact Or.inl (Or.inl h)
  · rcases le_total a.1 b.1 with h' | h'
    · exact Or.inl (Or.inr ⟨h, h'⟩)
    · exact Or.inr (Or.inr ⟨h.symm, h'⟩)
  · exact Or.inr (Or.inl h)

instance : IsTrans (ℤ × ℚ) resultOrder := by
  constructor
  intro a b c hab hbc
  rcases hab with h1 | ⟨h1, h1'⟩
  · rcases hbc with h2 | ⟨h2, _⟩
    · exact Or.inl (h1.trans h2)
    · exact Or.inl (h2 ▸ h1)
  · rcases hbc with h2 | ⟨h2, h2'⟩
    · exact Or.inl (h1 ▸ h2)
    · exact Or.inr ⟨h1.trans h2, h1'.trans h2'⟩

/-- The id/distance pair of every database vector against one query
vector: entry `i` is `(i, ‖q - vecs[i]‖²)`. -/
def searchPairs (vecs : List (List ℚ)) (q : List ℚ) : List (ℤ × ℚ) :=
  (List.range vecs.length).map
    (fun i => (Int.ofNat i, sqDistL2 q (vecs.getD i [])))

/-- `faiss.IndexFlatL2.search` on a single query (lines 120-123),
modelled from its documented semantics: exact search returning, for each
query, `k` result slots ordered by ascending squared-L2 distance
(`resultOrder`); when the database holds fewer than `k` vectors the
remaining slots are padded with id `-1` (documented FAISS behaviour: "if
there are not enough results for a query, the result array is padded
with -1s") and a sentinel distance.  For equal distances this definition
arranges slots by `resultOrder` — one admissible arrangement; the
contract that leaves the tie order unspecified is `faissAdmissible`
below. -/
def faissSearch (vecs : List (List ℚ)) (q : List ℚ) (k : ℕ) : List (ℤ × ℚ) :=
  let top := (List.insertionSort resultOrder (searchPairs vecs q)).take k
  top ++ List.replicate (k - top.length) ((-1 : ℤ), floatMaxSentinel)

/-- The documented contract of `faiss.IndexFlatL2.search` with NO
assumption about tie order: an output is admissible iff it consists of
the first `k` slots of some arrangement of the exact id/distance pairs
in non-decreasing distance order, padded with `-1` slots when fewer
than `k` vectors exist.  For equal distances the slot order is left
free — FAISS does not specify it, and spec §4.2 concedes the underlying
structure may not guarantee tie order. -/
def faissAdmissible (vecs : List (List ℚ)) (q : List ℚ) (k : ℕ)
    (out : List (ℤ × ℚ)) : Prop :=
  ∃ full : List (ℤ × ℚ), full.Perm (searchPairs vecs q) ∧
    ((full.map Prod.snd).Sorted (· ≤ ·)) ∧
    out = full.take k ++
      List.replicate (k - (full.take k).length) ((-1 : ℤ), floatMaxSentinel)

/-! ## `RAGSystem.search`, `get_answer`, `get_context` -/

/-- `search` (lines 102-130): guard `if not self.questions or
self.index is None: return []`; otherwise embed the query, run the FAISS
search with `top_k`, and keep the `(int(idx), float(distance))` pairs
with `idx < len(self.questions)` (a Python signed comparison). -/
def search (embed : List Char → List ℚ) (st : RAGState) (query : List Char)
    (top_k : ℕ) : List (ℤ × ℚ) :=
  if st.questions.isEmpty then []
  else
    match st.index with
    | none => []
    | some vecs =>
      (faissSearch vecs (embed query) top_k).filter
        (fun r => r.1 < (st.questions.length : ℤ))

/-- `search` (lines 102-130) with the library call's result abstracted:
the guard of line 113, then the `zip`/`append` filter loop of lines
125-129 applied to whatever list of slots the index returned.
`search_eq_searchRaw` below ties this to `search`; stating the wrapper
this way makes visible that the repository code only filters the
index's slots and never reorders them. -/
def searchRaw (st : RAGState) (raw : List (ℤ × ℚ)) : List (ℤ × ℚ) :=
  if st.questions.isEmpty then []
  else
    match st.index with
    | none => []
    | some _ => raw.filter (fun r => r.1 < (st.questions.length : ℤ))

/-- A Python value in one of the dicts built by `get_answer`. -/
inductive PyVal where
  | str : List Char → PyVal
  | num : ℚ → PyVal
  | none : PyVal
deriving DecidableEq

/-- Key lookup in a Python dict modelled as an association list. -/
def pyLookup (d : List (String × PyVal)) (key : String) : Option PyVal :=
  (d.find? (fun e => e.1 == key)).map (fun e => e.2)

/-- Python `xs[i]` for `int` `i`: negative indices count from the end;
an index out of range raises `IndexError` (modelled as `[]`; every use
reached by the claims below is in range). -/
def pyIndex (xs : List (List Char)) (i : ℤ) : List Char :=
  let j : ℤ := if i < 0 then i + xs.length else i
  if 0 ≤ j ∧ j < xs.length then xs.getD j.toNat [] else []

/-- The fixed fallback answer string of `get_answer` (line 147). -/
def fallbackAnswer : List Char :=
  "I don't have information about that in my knowledge base.".toList

/-- Line 156: `confidence = max(0.0, 1.0 - (distance / 10.0))`. -/
def confidenceOf (distance : ℚ) : ℚ := max 0 (1 - distance / 10)

/-- `get_answer` (lines 132-164): search with `top_k=1`; on no result
return the four-key fallback dict of lines 145-150 (note: it has no
`'distance'` key); otherwise return the five-key dict of lines 158-164
built from `results[0]`. -/
def get_answer (embed : List Char → List ℚ) (st : RAGState) (query : List Char) :
    List (String × PyVal) :=
  match search embed st query 1 with
  | [] =>
    [("question", PyVal.str query),
     ("answer", PyVal.str fallbackAnswer),
     ("confidence", PyVal.num 0),
     ("matched_question", PyVal.none)]
  | (idx, distance) :: _ =>
    [("question", PyVal.str query),
     ("answer", PyVal.str (pyIndex st.answers idx)),
     ("confidence", PyVal.num (confidenceOf distance)),
     ("matched_question", PyVal.str (pyIndex st.questions idx)),
     ("distance", PyVal.num distance)]

/-- The fallback string of `get_context` (line 180). -/
def noInfoText : List Char :=
  "No relevant information found in knowledge base.".toList

/-- `get_context` (lines 166-187): search with `top_k`; if empty, the
literal fallback; otherwise the blocks `f"Q: {questions[idx]}\nA:
{answers[idx]}"` joined by `"\n\n"`. -/
def get_context (embed : List Char → List ℚ) (st : RAGState) (query : List Char)
    (top_k : ℕ) : List Char :=
  let results := search embed st query top_k
  if results.isEmpty then noInfoText
  else
    List.intercalate "\n\n".toList
      (results.map (fun r =>
        "Q: ".toList ++ pyIndex st.questions r.1 ++
        "\nA: ".toList ++ pyIndex st.answers r.1))

/-! ## The synthesized default knowledge base
(`_create_sample_knowledge_base`, lines 37-66) -/

/-- The exact `content` string written by `_create_sample_knowledge_base`
(lines 39-62), including its trailing newline.  The file is written and
re-read as UTF-8, so loading goes through `loadKnowledgeBase` on exactly
this text. -/
def sampleKnowledgeBaseContent : String :=
  "Question: What are your business hours?
Answer: We are open Monday to Friday from 9 AM to 6 PM, and Saturday from 10 AM to 4 PM. We are closed on Sundays and public holidays.

Question: How can I contact customer support?
Answer: You can reach our customer support team via email at support@company.com, call us at 1-800-SUPPORT, or use the live chat on our website available 24/7.

Question: What products do you offer?
Answer: We offer a wide range of software solutions including project management tools, customer relationship management (CRM) systems, and data analytics platforms. All products come with a 30-day free trial.

Question: What is your return policy?
Answer: We offer a 60-day money-back guarantee on all our products. If you're not satisfied, contact our support team for a full refund, no questions asked.

Question: Do you offer training for new users?
Answer: Yes! We provide comprehensive onboarding including video tutorials, documentation, and live training sessions. Premium customers also get dedicated account managers.

Question: What payment methods do you accept?
Answer: We accept all major credit cards (Visa, MasterCard, American Express), PayPal, bank transfers, and for enterprise customers, we can arrange invoicing with net-30 terms.

Question: Is my data secure?
Answer: Absolutely. We use bank-level 256-bit encryption, regular security audits, and comply with GDPR, SOC 2, and ISO 27001 standards. Your data is backed up daily.

Question: Can I upgrade or downgrade my plan?
Answer: Yes, you can change your plan at any time. Upgrades take effect immediately, and downgrades will apply at the start of your next billing cycle. No penalties for changes.
"

/-- Re-serialization of one parsed record in the knowledge-base file
format of spec §6: the question marker and question text, a newline, the
answer marker and answer text. -/
def serializeRecord (qa : List Char × List Char) : List Char :=
  "Question: ".toList ++ qa.1 ++ "\nAnswer: ".toList ++ qa.2

/-- Re-serialization of a parsed corpus: records in order, separated by
one blank line. -/
def serializeCorpus (recs : List (List Char × List Char)) : List Char :=
  List.intercalate "\n\n".toList (recs.map serializeRecord)

/-- The parsed (question, answer) records of a corpus text, in ingestion
order. -/
def parsedRecords (content : List Char) : List (List Char × List Char) :=
  ((parsePairs content).filter recordKeep).map
    (fun p => (recordQuestion p, recordAnswer p))

/-! ## Spec-side definitions

These follow the *spec's wording* (not the code); they are used to state
the claims and to exhibit where code and spec part ways. -/

/-- Start index of the first occurrence of `sub` in `s`, if any. -/
def firstOcc (sub : List Char) : List Char → Option ℕ
  | [] => if sub.isPrefixOf [] then some 0 else none
  | c :: rest =>
    if sub.isPrefixOf (c :: rest) then some 0
    else (firstOcc sub rest).map (· + 1)

/-- Spec wording (§4.1, claim C3): "everything after the answer marker to
the end of the record" — the text following the first occurrence of
`sub` in `s`. -/
def textAfterFirst (sub s : List Char) : List Char :=
  match firstOcc sub s with
  | some p => s.drop (p + sub.length)
  | none => s

/-- Spec wording (§4.1, claim C5): the record contains a question marker
occurring strictly before an answer marker (some occurrence of the
answer marker starts after the first occurrence of the question
marker). -/
def specWellFormed (r : List Char) : Bool :=
  match firstOcc questionMarker r with
  | none => false
  | some p => pyContains answerMarker (r.drop (p + 1))

/-! ## The state produced by a successful load -/

theorem loadKnowledgeBase_state {embed : List Char → List ℚ}
    {content : List Char} {st : RAGState}
    (h : loadKnowledgeBase embed content = some st) :
    st.questions = ((parsePairs content).filter recordKeep).map recordQuestion ∧
    st.answers = ((parsePairs content).filter recordKeep).map recordAnswer ∧
    st.documents = (parsePairs content).filter recordKeep ∧
    st.index = some (st.questions.map embed) := by
  simp only [loadKnowledgeBase] at h
  split at h
  · exact absurd h (by simp)
  · cases h
    exact ⟨rfl, rfl, rfl, rfl⟩

theorem getD_map_eq {α β : Type} (f : α → β) (l : List α) (i : ℕ) (d : α) (d' : β)
    (hi : i < l.length) : (l.map f).getD i d' = f (l.getD i d) := by
  rw [List.getD_eq_getElem?_getD, List.getD_eq_getElem?_getD, List.getElem?_map]
  rw [List.getElem?_eq_getElem hi]
  simp

/-! ## Lemmas about the modelled index search -/

theorem searchPairs_length (vecs : List (List ℚ)) (q : List ℚ) :
    (searchPairs vecs q).length = vecs.length := by
  simp [searchPairs]

theorem searchPairs_fst_lt {vecs : List (List ℚ)} {q : List ℚ} {r : ℤ × ℚ}
    (h : r ∈ searchPairs vecs q) : 0 ≤ r.1 ∧ r.1 < (vecs.length : ℤ) := by
  simp only [searchPairs, List.mem_map, List.mem_range] at h
  obtain ⟨i, hi, rfl⟩ := h
  exact ⟨by simp, by simp; omega⟩

theorem mem_searchPairs_of_lt {vecs : List (List ℚ)} {q : List ℚ} {i : ℕ}
    (hi : i < vecs.length) :
    (Int.ofNat i, sqDistL2 q (vecs.getD i [])) ∈ searchPairs vecs q := by
  simp only [searchPairs, List.mem_map, List.mem_range]
  exact ⟨i, hi, rfl⟩

theorem insertionSort_searchPairs_length (vecs : List (List ℚ)) (q : List ℚ) :
    (List.insertionSort resultOrder (searchPairs vecs q)).length = vecs.length := by
  rw [(List.perm_insertionSort resultOrder (searchPairs vecs q)).length_eq,
    searchPairs_length]

theorem faissSearch_eq_of_le {vecs : List (List ℚ)} {q : List ℚ} {k : ℕ}
    (hk : k ≤ vecs.length) :
    faissSearch vecs q k =
      (List.insertionSort resultOrder (searchPairs vecs q)).take k := by
  unfold faissSearch
  have hlen : ((List.insertionSort resultOrder (searchPairs vecs q)).take k).length = k := by
    rw [List.length_take, insertionSort_searchPairs_length]
    omega
  simp [hlen]

theorem faissSearch_length (vecs : List (List ℚ)) (q : List ℚ) (k : ℕ) :
    (faissSearch vecs q k).length = k := by
  unfold faissSearch
  simp only [List.length_append, List.length_replicate, List.length_take,
    insertionSort_searchPairs_length]
  omega

theorem mem_pairs_of_mem_take {vecs : List (List ℚ)} {q : List ℚ} {k : ℕ}
    {r : ℤ × ℚ}
    (h : r ∈ (List.insertionSort resultOrder (searchPairs vecs q)).take k) :
    r ∈ searchPairs vecs q :=
  ((List.perm_insertionSort resultOrder (searchPairs vecs q)).mem_iff).mp
    (List.mem_of_mem_take h)

theorem search_eq_filter {embed : List Char → List ℚ} {st : RAGState}
    {q : List Char} {k : ℕ} {vecs : List (List ℚ)}
    (hne : st.questions ≠ []) (hidx : st.index = some vecs) :
    search embed st q k =
      (faissSearch vecs (embed q) k).filter
        (fun r => r.1 < (st.questions.length : ℤ)) := by
  unfold search
  rw [hidx]
  simp [hne]

/-- When `k` does not exceed the corpus size, the Python-side filter
keeps every FAISS result slot, and the search output is exactly the
first `k` entries of the sorted pair list. -/
theorem search_eq_take {embed : List Char → List ℚ} {st : RAGState}
    {q : List Char} {k : ℕ} {vecs : List (List ℚ)}
    (hne : st.questions ≠ []) (hidx : st.index = some vecs)
    (hlen : vecs.length = st.questions.length) (hk : k ≤ st.questions.length) :
    search embed st q k =
      (List.insertionSort resultOrder (searchPairs vecs (embed q))).take k := by
  rw [search_eq_filter hne hidx, faissSearch_eq_of_le (by omega)]
  apply List.filter_eq_self.mpr
  intro r hr
  have hlt := (searchPairs_fst_lt (mem_pairs_of_mem_take hr)).2
  rw [hlen] at hlt
  simpa using hlt

theorem search_sorted {embed : List Char → List ℚ} {st : RAGState}
    {q : List Char} {k : ℕ} {vecs : List (List ℚ)}
    (hidx : st.index = some vecs) (hlen : vecs.length = st.questions.length)
    (hk : k ≤ st.questions.length) :
    ((search embed st q k).map Prod.snd).Sorted (· ≤ ·) := by
  by_cases hne : st.questions = []
  · simp [search, hne]
  · rw [search_eq_take hne hidx hlen hk]
    have hsorted := List.sorted_insertionSort resultOrder (searchPairs vecs (embed q))
    have htake : ((List.insertionSort resultOrder
        (searchPairs vecs (embed q))).take k).Pairwise resultOrder :=
      List.Pairwise.sublist (List.take_sublist k _) hsorted
    refine List.Pairwise.map Prod.snd ?_ htake
    intro a b hab
    rcases hab with h | ⟨h, -⟩
    · exact le_of_lt h
    · exact le_of_eq h

/-- The concrete index model is one admissible behaviour of the
assumption-free FAISS contract. -/
theorem faissSearch_admissible (vecs : List (List ℚ)) (q : List ℚ) (k : ℕ) :
    faissAdmissible vecs q k (faissSearch vecs q k) := by
  refine ⟨List.insertionSort resultOrder (searchPairs vecs q),
    List.perm_insertionSort resultOrder (searchPairs vecs q), ?_, rfl⟩
  have hsorted := List.sorted_insertionSort resultOrder (searchPairs vecs q)
  refine List.Pairwise.map Prod.snd ?_ hsorted
  intro a b hab
  rcases hab with h | ⟨h, -⟩
  · exact le_of_lt h
  · exact le_of_eq h

/-- `search` is exactly the abstract wrapper `searchRaw` fed with the
concrete index model's output. -/
theorem search_eq_searchRaw (embed : List Char → List ℚ) (st : RAGState)
    (q : List Char) (k : ℕ) {vecs : List (List ℚ)}
    (hidx : st.index = some vecs) :
    search embed st q k = searchRaw st (faissSearch vecs (embed q) k) := by
  unfold search searchRaw
  rw [hidx]

/-! ## Concrete artifacts for witnesses and counterexamples -/

/-- A stub embedding collaborator mapping every text to the
1-dimensional vector `[0]` (deterministic and order-preserving, per the
collaborator interface of spec §6). -/
def embedConst : List Char → List ℚ := fun _ => [0]

/-- A one-record corpus text. -/
def oneRecordContent : List Char := "Question: q\nAnswer: a".toList

/-- The state reached after loading `oneRecordContent` with
`embedConst`. -/
def oneRecordState : RAGState :=
  ⟨["q".toList], ["a".toList], [oneRecordContent], some [[0]]⟩

/-- A two-record corpus whose two questions are identical, hence get
identical embeddings under any embedding collaborator. -/
def twoRecordContent : List Char :=
  "Question: q\nAnswer: a\n\nQuestion: q\nAnswer: b".toList

/-- The state reached after loading `twoRecordContent` with
`embedConst`. -/
def twoRecordState : RAGState :=
  ⟨["q".toList, "q".toList], ["a".toList, "b".toList],
   ["Question: q\nAnswer: a".toList, "Question: q\nAnswer: b".toList],
   some [[0], [0]]⟩

/-- The field values set by `__init__` (lines 22-25) before any load:
empty parallel lists and `self.index = None`. -/
def emptyState : RAGState := ⟨[], [], [], none⟩

/-! ## The claims -/

/-- C1: the claim fails on the code.  For a one-record corpus (N = 1)
and `k = 2`, `search` returns two results, not `min(k, N) = 1`: FAISS
pads the missing slot with id `-1`, and the filter on line 127
(`idx < len(self.questions)`) keeps `-1` because the comparison is
signed.  The intended behaviour (clamping, as the spec states) is what
the filter was evidently written for, so this is recorded as a code
bug; this theorem evaluates the model at the failing input. -/
theorem C1_overshoot_returns_padding :
    loadKnowledgeBase embedConst oneRecordContent = some oneRecordState ∧
    search embedConst oneRecordState "anything".toList 2 =
      [(0, 0), (-1, floatMaxSentinel)] ∧
    (search embedConst oneRecordState "anything".toList 2).length ≠
      min 2 oneRecordState.questions.length := by
  have hs : search embedConst oneRecordState "anything".toList 2 =
      [(0, 0), (-1, floatMaxSentinel)] := by
    simp only [search, oneRecordState, embedConst, faissSearch, searchPairs,
      sqDistL2, List.range_succ]
    norm_num [resultOrder, List.insertionSort, List.orderedInsert,
      List.replicate_succ, List.filter]
  exact ⟨by decide, hs, by rw [hs]; decide⟩

/-- C2: confirmed.  Whenever `search(query, 1)` yields a first result
with distance `d ≥ 0`, `get_answer` reports confidence
`max(0, 1 - d/10)`; that quantity is monotonically non-increasing in
the distance, lies in `[0, 1]`, equals `1` exactly when `d = 0`, and
equals `0` for every distance `≥ 10`. -/
theorem C2_confidence_formula (embed : List Char → List ℚ) (st : RAGState)
    (q : List Char) (i : ℤ) (d : ℚ) (rest : List (ℤ × ℚ))
    (hs : search embed st q 1 = (i, d) :: rest) (hd : 0 ≤ d) :
    pyLookup (get_answer embed st q) "confidence" =
      some (PyVal.num (confidenceOf d)) ∧
    confidenceOf d = max 0 (1 - d / 10) ∧
    (∀ d₁ d₂ : ℚ, d₁ ≤ d₂ → confidenceOf d₂ ≤ confidenceOf d₁) ∧
    0 ≤ confidenceOf d ∧ confidenceOf d ≤ 1 ∧
    (confidenceOf d = 1 ↔ d = 0) ∧
    (∀ d' : ℚ, 10 ≤ d' → confidenceOf d' = 0) := by
  refine ⟨?_, rfl, ?_, ?_, ?_, ⟨?_, ?_⟩, ?_⟩
  · simp [get_answer, hs, pyLookup]
  · intro d₁ d₂ hle
    unfold confidenceOf
    exact max_le_max le_rfl (by linarith)
  · exact le_max_left 0 _
  · unfold confidenceOf
    exact max_le (by norm_num) (by linarith)
  · intro h1
    unfold confidenceOf at h1
    rcases max_eq_iff.mp h1 with ⟨h0, -⟩ | ⟨hx, -⟩
    · norm_num at h0
    · linarith
  · rintro rfl
    unfold confidenceOf
    norm_num
  · intro d' h'
    unfold confidenceOf
    exact max_eq_left (by linarith)

/-- C2 witness: the theorem applied to the loaded one-record corpus with
the stub embedding, where the top result has distance 0. -/
theorem C2_confidence_formula_witness :
    pyLookup (get_answer embedConst oneRecordState "q2".toList) "confidence" =
      some (PyVal.num (confidenceOf 0)) ∧
    confidenceOf 0 = max 0 (1 - 0 / 10) ∧
    (∀ d₁ d₂ : ℚ, d₁ ≤ d₂ → confidenceOf d₂ ≤ confidenceOf d₁) ∧
    0 ≤ confidenceOf 0 ∧ confidenceOf 0 ≤ 1 ∧
    (confidenceOf 0 = 1 ↔ (0 : ℚ) = 0) ∧
    (∀ d' : ℚ, 10 ≤ d' → confidenceOf d' = 0) :=
  C2_confidence_formula embedConst oneRecordState "q2".toList 0 0 []
    (by
      simp only [search, oneRecordState, embedConst, faissSearch, searchPairs,
        sqDistL2, List.range_succ]
      norm_num [resultOrder, List.insertionSort, List.orderedInsert,
        List.replicate_succ, List.filter])
    le_rfl

/-- A record in which the answer marker occurs twice, so that the split
on line 80 truncates the parsed answer at the second occurrence. -/
def doubleAnswerRecord : List Char := "Question: q\nAnswer: a Answer: b".toList

/-- C3 counterexample: the claim fails on the code.  In the record
`"Question: q\nAnswer: a Answer: b"` the question marker precedes the
answer marker, so the claim applies and predicts the parsed answer
`"a Answer: b"` (everything after the answer marker, trimmed), but the
code parses `"a"`: `pair.split('Answer:')[1]` stops at the next
occurrence of the marker. -/
theorem C3_counterexample :
    recordKeep doubleAnswerRecord = true ∧
    firstOcc questionMarker doubleAnswerRecord = some 0 ∧
    firstOcc answerMarker doubleAnswerRecord = some 12 ∧
    pyStrip (textAfterFirst answerMarker doubleAnswerRecord) =
      "a Answer: b".toList ∧
    recordAnswer doubleAnswerRecord = "a".toList ∧
    "a".toList ≠ "a Answer: b".toList := by
  decide

/-- C3 amended: for a record of the form
`'Question:' ++ q ++ 'Answer:' ++ a` in which the answer marker does not
occur before the shown one nor inside `a`, and the question marker does
not recur in `q`, the parsed question is `q` trimmed and the parsed
answer is `a` trimmed — the claim as stated, restricted to records with
a single occurrence of each marker, the question marker at the start.
(In general the code deletes every occurrence of the question marker
from the segment before the first answer marker and truncates the answer
at the next answer-marker occurrence.) -/
theorem C3_amended_record_parse (q a : List Char)
    (hq1 : pyContains answerMarker (questionMarker ++ q) = false)
    (hq2 : pyContains questionMarker q = false)
    (ha : pyContains answerMarker a = false) :
    recordKeep (questionMarker ++ q ++ answerMarker ++ a) = true ∧
    recordQuestion (questionMarker ++ q ++ answerMarker ++ a) = pyStrip q ∧
    recordAnswer (questionMarker ++ q ++ answerMarker ++ a) = pyStrip a := by
  have haM : answerMarker ≠ [] := by decide
  have hqM : questionMarker ≠ [] := by decide
  have hb : borderlessB answerMarker = true := by decide
  have hsplit : pySplit answerMarker (questionMarker ++ q ++ answerMarker ++ a) =
      (questionMarker ++ q) :: pySplit answerMarker a := by
    have h := @pySplit_append_sep answerMarker (questionMarker ++ q) a haM hb hq1
    simpa [List.append_assoc] using h
  have hsplita : pySplit answerMarker a = [a] := pySplit_of_not_contains haM ha
  refine ⟨?_, ?_, ?_⟩
  · unfold recordKeep
    rw [Bool.and_eq_true]
    constructor
    · have h1 := pyContains_append_self questionMarker [] (q ++ answerMarker ++ a)
      simpa [List.append_assoc] using h1
    · have h2 := pyContains_append_self answerMarker (questionMarker ++ q) a
      simpa [List.append_assoc] using h2
  · unfold recordQuestion
    rw [hsplit]
    simp only [List.headD_cons]
    rw [pyReplace_del_leading_sep hqM hq2]
  · unfold recordAnswer
    rw [hsplit, hsplita]
    rfl

/-- C3 amended witness: the amended theorem at a concrete record with
whitespace-padded question and answer texts. -/
theorem C3_amended_record_parse_witness :
    recordKeep (questionMarker ++ " hi ".toList ++ answerMarker ++ " there ".toList) = true ∧
    recordQuestion (questionMarker ++ " hi ".toList ++ answerMarker ++ " there ".toList) =
      pyStrip " hi ".toList ∧
    recordAnswer (questionMarker ++ " hi ".toList ++ answerMarker ++ " there ".toList) =
      pyStrip " there ".toList :=
  C3_amended_record_parse " hi ".toList " there ".toList
    (by decide) (by decide) (by decide)

/-- C4 counterexample: the claim fails on the code.  On an empty corpus
the fallback dict of lines 145-150 is returned; it has only the four
keys `question`, `answer`, `confidence`, `matched_question` — there is
no `distance` key at all, where the claim says `distance` is carried
as null. -/
theorem C4_counterexample :
    get_answer embedConst emptyState "hello".toList =
      [("question", PyVal.str "hello".toList),
       ("answer", PyVal.str fallbackAnswer),
       ("confidence", PyVal.num 0),
       ("matched_question", PyVal.none)] ∧
    pyLookup (get_answer embedConst emptyState "hello".toList) "distance" =
      none := by
  constructor
  · decide
  · decide

/-- C4 amended: whenever the search guard fires (no questions loaded, or
no index), `get_answer` returns the fixed fallback response: the literal
no-information answer, confidence exactly 0, `matched_question` null —
and exactly those four keys, with no `distance` key (absent rather than
null). -/
theorem C4_fallback_shape (embed : List Char → List ℚ) (st : RAGState)
    (q : List Char) (h : st.questions = [] ∨ st.index = none) :
    get_answer embed st q =
      [("question", PyVal.str q), ("answer", PyVal.str fallbackAnswer),
       ("confidence", PyVal.num 0), ("matched_question", PyVal.none)] ∧
    pyLookup (get_answer embed st q) "distance" = none ∧
    pyLookup (get_answer embed st q) "matched_question" = some PyVal.none ∧
    pyLookup (get_answer embed st q) "confidence" = some (PyVal.num 0) := by
  have hsearch : search embed st q 1 = [] := by
    rcases h with h | h
    · simp [search, h]
    · simp [search, h]
  have hga : get_answer embed st q =
      [("question", PyVal.str q), ("answer", PyVal.str fallbackAnswer),
       ("confidence", PyVal.num 0), ("matched_question", PyVal.none)] := by
    simp [get_answer, hsearch]
  refine ⟨hga, ?_, ?_, ?_⟩ <;> simp [hga, pyLookup]

/-- C4 amended witness: the amended theorem at the freshly initialized
state. -/
theorem C4_fallback_shape_witness :
    get_answer embedConst emptyState "hi".toList =
      [("question", PyVal.str "hi".toList), ("answer", PyVal.str fallbackAnswer),
       ("confidence", PyVal.num 0), ("matched_question", PyVal.none)] ∧
    pyLookup (get_answer embedConst emptyState "hi".toList) "distance" = none ∧
    pyLookup (get_answer embedConst emptyState "hi".toList) "matched_question" =
      some PyVal.none ∧
    pyLookup (get_answer embedConst emptyState "hi".toList) "confidence" =
      some (PyVal.num 0) :=
  C4_fallback_shape embedConst emptyState "hi".toList (Or.inl rfl)

/-- A record whose answer marker precedes its question marker. -/
def reversedRecord : List Char := "Answer: a Question: q".toList

/-- C5 counterexample: the claim fails on the code.  The record
`"Answer: a Question: q"` has no question marker occurring before an
answer marker, so the claim says it is skipped; but line 79 only checks
that both markers are *contained*, in any order, so the code keeps it
and the corpus has length 1, not 0. -/
theorem C5_counterexample :
    specWellFormed reversedRecord = false ∧
    parsePairs reversedRecord = [reversedRecord] ∧
    recordKeep reversedRecord = true ∧
    (parsedRecords reversedRecord).length = 1 := by
  decide

/-- C5 amended: parsing is total and never raises; a record is kept iff
it contains both the question marker and the answer marker anywhere (the
relative order is not checked), all other records are silently skipped,
the corpus length equals the count of records containing both markers,
and the one risky access (`parts[1]` on line 82) is always in bounds on
kept records because a record containing the answer marker splits into
at least two parts. -/
theorem C5_tolerant_parsing (embed : List Char → List ℚ) (content : List Char)
    (st : RAGState) (h : loadKnowledgeBase embed content = some st) :
    st.documents = (parsePairs content).filter
      (fun p => pyContains questionMarker p && pyContains answerMarker p) ∧
    st.questions.length = st.documents.length ∧
    st.answers.length = st.documents.length ∧
    ∀ p ∈ st.documents, 2 ≤ (pySplit answerMarker p).length := by
  obtain ⟨hq, ha, hd, hidx⟩ := loadKnowledgeBase_state h
  refine ⟨by rw [hd]; rfl, by rw [hq, hd]; simp, by rw [ha, hd]; simp, ?_⟩
  intro p hp
  rw [hd] at hp
  have hk : recordKeep p = true := List.of_mem_filter hp
  have hc : pyContains answerMarker p = true := by
    unfold recordKeep at hk
    rw [Bool.and_eq_true] at hk
    exact hk.2
  exact two_le_pySplit_length_of_contains (by decide) hc

/-- C5 amended witness: the amended theorem at the loaded one-record
corpus. -/
theorem C5_tolerant_parsing_witness :
    oneRecordState.documents = (parsePairs oneRecordContent).filter
      (fun p => pyContains questionMarker p && pyContains answerMarker p) ∧
    oneRecordState.questions.length = oneRecordState.documents.length ∧
    oneRecordState.answers.length = oneRecordState.documents.length ∧
    ∀ p ∈ oneRecordState.documents, 2 ≤ (pySplit answerMarker p).length :=
  C5_tolerant_parsing embedConst oneRecordContent oneRecordState (by decide)

/-- C6: confirmed.  For every query against a state with an index of one
vector per question and `k` within the corpus size, `get_context`
returns the literal fallback string exactly when the search is empty,
otherwise the results rendered as two-line `Q:`/`A:` blocks in search
order, joined by the two-character separator `"\n\n"` (one blank line
between consecutive blocks), and the result distances are in
non-decreasing order. -/
theorem C6_get_context_format (embed : List Char → List ℚ) (st : RAGState)
    (q : List Char) (k : ℕ) :
    (search embed st q k = [] → get_context embed st q k = noInfoText) ∧
    (search embed st q k ≠ [] →
      get_context embed st q k =
        List.intercalate "\n\n".toList
          ((search embed st q k).map (fun r =>
            "Q: ".toList ++ pyIndex st.questions r.1 ++
            "\nA: ".toList ++ pyIndex st.answers r.1))) ∧
    (∀ vecs, st.index = some vecs → vecs.length = st.questions.length →
      k ≤ st.questions.length →
      ((search embed st q k).map Prod.snd).Sorted (· ≤ ·)) := by
  refine ⟨?_, ?_, ?_⟩
  · intro h
    simp [get_context, h]
  · intro h
    simp [get_context, h]
  · intro vecs hidx hlen hk
    exact search_sorted hidx hlen hk

/-- C6 witness: the theorem at the loaded one-record corpus with `k = 1`. -/
theorem C6_get_context_format_witness :
    (search embedConst oneRecordState "x".toList 1 = [] →
      get_context embedConst oneRecordState "x".toList 1 = noInfoText) ∧
    (search embedConst oneRecordState "x".toList 1 ≠ [] →
      get_context embedConst oneRecordState "x".toList 1 =
        List.intercalate "\n\n".toList
          ((search embedConst oneRecordState "x".toList 1).map (fun r =>
            "Q: ".toList ++ pyIndex oneRecordState.questions r.1 ++
            "\nA: ".toList ++ pyIndex oneRecordState.answers r.1))) ∧
    (∀ vecs, oneRecordState.index = some vecs →
      vecs.length = oneRecordState.questions.length →
      1 ≤ oneRecordState.questions.length →
      ((search embedConst oneRecordState "x".toList 1).map Prod.snd).Sorted (· ≤ ·)) :=
  C6_get_context_format embedConst oneRecordState "x".toList 1

/-- C7: the claim is right and the code is wrong.  Building the index
over an empty corpus does not succeed: with zero questions the
embedding collaborator returns an empty array of shape `(0,)`, so
`dimension = embeddings.shape[1]` (line 96) raises `IndexError` —
modelled as `loadKnowledgeBase` returning `none`.  The second conjunct
shows the part of the claim the code does honour: the guard on line 113
makes `search` return `[]` for every query and every `k` whenever no
questions are loaded. -/
theorem C7_empty_corpus_build_raises :
    loadKnowledgeBase embedConst "no markers here".toList = none ∧
    (∀ (embed : List Char → List ℚ) (st : RAGState) (q : List Char) (k : ℕ),
      st.questions = [] → search embed st q k = []) := by
  constructor
  · decide
  · intro embed st q k h
    simp [search, h]

/-- C7 witness: the guard conjunct applied at the freshly initialized
state. -/
theorem C7_empty_corpus_build_raises_witness :
    search embedConst emptyState "x".toList 7 = [] :=
  C7_empty_corpus_build_raises.2 embedConst emptyState "x".toList 7 rfl

/-- C8: the claim is right — the spec explicitly requires the tie-break
("required since the underlying structure may not guarantee tie order")
— but the code does not implement it.  The failing state is reachable
(first conjunct: loading the two-identical-record corpus), and `search`
is exactly the wrapper `searchRaw` fed with the index's output (second
conjunct).  The two records tie at distance 0 (third conjunct), FAISS
does not specify the order of equal-distance slots, and both orders of
the tied pair are admissible index outputs under the assumption-free
contract `faissAdmissible` (fourth and fifth conjuncts); the wrapper
only filters, never reorders (last conjunct), so under the admissible
output that lists record 1 first the code returns the higher record
index first (sixth conjunct), violating the claim. -/
theorem C8_no_tie_breaking :
    loadKnowledgeBase embedConst twoRecordContent = some twoRecordState ∧
    search embedConst twoRecordState "q".toList 2 =
      searchRaw twoRecordState (faissSearch [[0], [0]] (embedConst "q".toList) 2) ∧
    searchPairs [[0], [0]] (embedConst "q".toList) =
      [(Int.ofNat 0, 0), (Int.ofNat 1, 0)] ∧
    faissAdmissible [[0], [0]] (embedConst "q".toList) 2
      [(Int.ofNat 1, 0), (Int.ofNat 0, 0)] ∧
    faissAdmissible [[0], [0]] (embedConst "q".toList) 2
      [(Int.ofNat 0, 0), (Int.ofNat 1, 0)] ∧
    searchRaw twoRecordState [(Int.ofNat 1, 0), (Int.ofNat 0, 0)] =
      [(Int.ofNat 1, 0), (Int.ofNat 0, 0)] ∧
    (∀ raw, searchRaw twoRecordState raw =
      raw.filter (fun r => r.1 < (2 : ℤ))) := by
  have hpairs : searchPairs [[0], [0]] (embedConst "q".toList) =
      [(Int.ofNat 0, 0), (Int.ofNat 1, 0)] := by
    simp [searchPairs, embedConst, sqDistL2, List.range_succ]
  refine ⟨by decide,
    search_eq_searchRaw embedConst twoRecordState "q".toList 2 rfl,
    hpairs, ?_, ?_, by decide, fun raw => rfl⟩
  · refine ⟨[(Int.ofNat 1, 0), (Int.ofNat 0, 0)], ?_, by decide, by decide⟩
    rw [hpairs]
    exact List.Perm.swap (Int.ofNat 0, 0) (Int.ofNat 1, 0) []
  · exact ⟨[(Int.ofNat 0, 0), (Int.ofNat 1, 0)], by rw [hpairs], by decide, by decide⟩

/-- C9: confirmed.  Parsing the synthesized default knowledge base and
re-serializing every parsed record in the marker format (question marker
plus question, answer marker plus answer, records separated by one blank
line) reproduces the file byte-for-byte, up to the surrounding
whitespace the parser already stripped (here: the file's trailing
newline). -/
theorem C9_round_trip :
    serializeCorpus (parsedRecords sampleKnowledgeBaseContent.toList) =
      pyStrip sampleKnowledgeBaseContent.toList :=
  eqChars_iff.mp (by decide)

/-- C10: confirmed.  After any successful load, the questions, answers
and documents lists have one entry per kept record, the index stores one
vector per question, and at every index `i` the question, the answer and
the stored vector all come from the same parsed record (the vector being
the embedding of the question at `i`). -/
theorem C10_parallel_arrays (embed : List Char → List ℚ) (content : List Char)
    (st : RAGState) (h : loadKnowledgeBase embed content = some st) :
    st.questions.length = st.answers.length ∧
    st.questions.length = st.documents.length ∧
    ∃ vecs, st.index = some vecs ∧ vecs.length = st.questions.length ∧
      ∀ i, i < st.questions.length →
        st.questions.getD i [] = recordQuestion (st.documents.getD i []) ∧
        st.answers.getD i [] = recordAnswer (st.documents.getD i []) ∧
        vecs.getD i [] = embed (st.questions.getD i []) := by
  obtain ⟨hq, ha, hd, hidx⟩ := loadKnowledgeBase_state h
  refine ⟨by rw [hq, ha]; simp, by rw [hq, hd]; simp,
    st.questions.map embed, hidx, by simp, ?_⟩
  intro i hi
  have hik : i < ((parsePairs content).filter recordKeep).length := by
    rw [hq] at hi
    simpa using hi
  refine ⟨?_, ?_, ?_⟩
  · rw [hq, hd]
    exact getD_map_eq recordQuestion _ i [] [] hik
  · rw [ha, hd]
    exact getD_map_eq recordAnswer _ i [] [] hik
  · exact getD_map_eq embed st.questions i [] [] hi

/-- C10 witness: the theorem at the loaded one-record corpus. -/
theorem C10_parallel_arrays_witness :
    oneRecordState.questions.length = oneRecordState.answers.length ∧
    oneRecordState.questions.length = oneRecordState.documents.length ∧
    ∃ vecs, oneRecordState.index = some vecs ∧
      vecs.length = oneRecordState.questions.length ∧
      ∀ i, i < oneRecordState.questions.length →
        oneRecordState.questions.getD i [] =
          recordQuestion (oneRecordState.documents.getD i []) ∧
        oneRecordState.answers.getD i [] =
          recordAnswer (oneRecordState.documents.getD i []) ∧
        vecs.getD i [] = embedConst (oneRecordState.questions.getD i []) :=
  C10_parallel_arrays embedConst oneRecordContent oneRecordState (by decide)

end VoiceAgent
